import Mathlib

/-!
Shallow embedding of the file-organizer utility
(src/automation/file_organizer.py) and verification of its
specification claims.

Filenames are modelled as lists of characters.  The filesystem state is
modelled to the depth the program actually inspects: the direct children
of the source directory (files in iteration order plus subdirectories),
and for each direct subdirectory its files and its own subdirectories
with their files.  Per-file move failures and per-folder removal
failures are modelled by boolean oracles, matching the try/except blocks
of the source.  Creation timestamps are modelled as seconds of local
time since the epoch.
-/

/-- Filenames (and directory names) as lists of characters. -/
abbrev Name := List Char

/-! ### Decimal rendering of naturals

Python renders the collision counter with an f-string and the year with
strftime, both as plain decimal.  fmtCore is fuel-indexed structural
recursion so that it reduces in the kernel; fuel n + 1 always suffices. -/

/-- Decimal digits of n (most significant first) prepended to acc. -/
def fmtCore : Nat → Nat → List Char → List Char
  | 0, _, acc => acc
  | fuel + 1, n, acc =>
    if n < 10 then Nat.digitChar n :: acc
    else fmtCore fuel (n / 10) (Nat.digitChar (n % 10) :: acc)

/-- Decimal rendering of a natural number, as Python str would print it. -/
def fmtNat (n : Nat) : List Char := fmtCore (n + 1) n []

/-- Zero-padded two-digit rendering, as strftime %m prints the month. -/
def pad2 (m : Nat) : List Char := if m < 10 then '0' :: fmtNat m else fmtNat m

/-- Decoder for decimal digit lists, used to prove fmtNat injective. -/
def decVal (l : List Char) : Nat := l.foldl (fun b c => b * 10 + (c.toNat - 48)) 0

/-! ### pathlib stem/suffix -/

/-- Position of the last dot in a name, if any (pathlib rfind of the dot). -/
def lastDotPos : Name → Option Nat
  | [] => none
  | c :: cs =>
    match lastDotPos cs with
    | some i => some (i + 1)
    | none => if c = '.' then some 0 else none

/-- Embeds pathlib stem and suffix: the name splits at the last dot
provided that dot is neither the first nor the last character; otherwise
the stem is the whole name and the suffix is empty. -/
def pathSplit (name : Name) : Name × Name :=
  match lastDotPos name with
  | some i =>
    if 0 < i ∧ i < name.length - 1 then (name.take i, name.drop i) else (name, [])
  | none => (name, [])

/-- Lower-casing of a name, as Python str.lower on ASCII extensions. -/
def lowerName (s : Name) : Name := s.map Char.toLower

/-! ### The fixed category table (FileOrganizer.__init__, self.file_types) -/

/-- The category table of FileOrganizer.__init__: category name mapped to
its list of lowercase extensions, in insertion order. -/
def fileTypes : List (String × List Name) :=
  [("Images", [".jpg".toList, ".jpeg".toList, ".png".toList, ".gif".toList,
      ".bmp".toList, ".svg".toList, ".webp".toList, ".tiff".toList]),
   ("Documents", [".pdf".toList, ".doc".toList, ".docx".toList, ".txt".toList,
      ".rtf".toList, ".odt".toList, ".pages".toList]),
   ("Spreadsheets", [".xls".toList, ".xlsx".toList, ".csv".toList,
      ".ods".toList, ".numbers".toList]),
   ("Presentations", [".ppt".toList, ".pptx".toList, ".odp".toList,
      ".key".toList]),
   ("Videos", [".mp4".toList, ".avi".toList, ".mkv".toList, ".mov".toList,
      ".wmv".toList, ".flv".toList, ".webm".toList, ".m4v".toList]),
   ("Audio", [".mp3".toList, ".wav".toList, ".flac".toList, ".aac".toList,
      ".ogg".toList, ".wma".toList, ".m4a".toList]),
   ("Archives", [".zip".toList, ".rar".toList, ".7z".toList, ".tar".toList,
      ".gz".toList, ".bz2".toList, ".xz".toList]),
   ("Code", [".py".toList, ".js".toList, ".html".toList, ".css".toList,
      ".java".toList, ".cpp".toList, ".c".toList, ".php".toList,
      ".rb".toList, ".go".toList]),
   ("Executables", [".exe".toList, ".msi".toList, ".dmg".toList,
      ".pkg".toList, ".deb".toList, ".rpm".toList, ".app".toList])]

/-- Lookup of an already lower-cased extension in the category table:
the first category whose extension list contains it, else Others. -/
def categoryLookup (e : Name) : String :=
  match fileTypes.find? (fun p => decide (e ∈ p.2)) with
  | some p => p.1
  | none => "Others"

/-- Core of get_file_category: lower-case the extension, then look it up
in the category table. -/
def categoryOfExt (extension : Name) : String :=
  categoryLookup (lowerName extension)

/-- Embeds FileOrganizer.get_file_category: category of a file name,
determined by its pathlib suffix. -/
def get_file_category (name : Name) : String :=
  categoryOfExt (pathSplit name).2

/-! ### Destination resolver (the duplicate-name while loop) -/

/-- Candidate destination names tried by the duplicate-name loop, for a
file whose pathlib stem and suffix are the components of p: the original
name first, then stem_1, stem_2, and so on with the original suffix. -/
def cand (p : Name × Name) : Nat → Name
  | 0 => p.1 ++ p.2
  | k + 1 => p.1 ++ '_' :: (fmtNat (k + 1) ++ p.2)

/-- Fuel-indexed linear search of the duplicate-name loop: starting at
candidate k, return the first candidate not occupying occ. -/
def resolveAux (occ : Finset Name) (p : Name × Name) : Nat → Nat → Name
  | 0, k => cand p k
  | fuel + 1, k => if cand p k ∈ occ then resolveAux occ p fuel (k + 1) else cand p k

/-- Embeds the duplicate-name while loop: first candidate name that does
not occur among the entries occ of the destination directory.  The
source loops unboundedly; fuel card + 1 is proved sufficient below, so
the two agree. -/
def resolveCollision (occ : Finset Name) (name : Name) : Name :=
  resolveAux occ (pathSplit name) (occ.card + 1) 0

/-! ### Date bucketer (datetime.fromtimestamp followed by strftime) -/

/-- Civil year and month of a day count since 1970-01-01, by the standard
Gregorian-calendar conversion that fromtimestamp performs. -/
def civilFromDays (z : Nat) : Nat × Nat :=
  let zs := z + 719468
  let era := zs / 146097
  let doe := zs % 146097
  let yoe := (doe - doe / 1460 + doe / 36524 - doe / 146096) / 365
  let y := yoe + era * 400
  let doy := doe - (365 * yoe + yoe / 4 - yoe / 100)
  let mp := (5 * doy + 2) / 153
  let m := if mp < 10 then mp + 3 else mp - 9
  (if m ≤ 2 then y + 1 else y, m)

/-- Embeds the bucket label of organize_by_date: strftime with the
year-dash-month format applied to fromtimestamp of the creation time t,
where t is in seconds of local time since the epoch. -/
def yearMonthLabel (t : Nat) : Name :=
  fmtNat (civilFromDays (t / 86400)).1 ++ '-' :: pad2 (civilFromDays (t / 86400)).2

/-! ### Filesystem state -/

/-- One direct subdirectory of the source directory: its files, the names
of its own subdirectories, and their file sets.  The program never reads
deeper than this. -/
structure Dir1 where
  dfiles : Finset Name
  dsubs : Finset Name
  dsub : Name → Finset Name

/-- Contents of the source directory: direct child files in directory
iteration order, and direct child directories. dirs is meaningful on
members of dirNames. -/
structure State where
  files : List Name
  dirNames : Finset Name
  dirs : Name → Dir1

/-- The macOS noise entry skipped by both organize passes. -/
def dsStore : Name := ".DS_Store".toList

/-- Name of the root folder created by organize_by_type. -/
def orgRoot : Name := "Organized".toList

/-- Name of the root folder created by organize_by_date. -/
def dateRoot : Name := "Organized_by_Date".toList

/-- Number of files in a direct subdirectory and its subdirectories. -/
def dirSize (d : Dir1) : Nat := d.dfiles.card + ∑ n ∈ d.dsubs, (d.dsub n).card

/-- Total number of files in the source tree, which contains the
destination tree. -/
def totalFiles (s : State) : Nat :=
  s.files.length + ∑ d ∈ s.dirNames, dirSize (s.dirs d)

/-- A freshly created directory. -/
def emptyDir : Dir1 := ⟨∅, ∅, fun _ => ∅⟩

/-- Embeds Path.mkdir with exist_ok for a direct child of the source:
reuse the directory if present, else create it empty. -/
def mkdirRoot (s : State) (n : Name) : State :=
  if n ∈ s.dirNames then s
  else ⟨s.files, insert n s.dirNames, Function.update s.dirs n emptyDir⟩

/-- Embeds Path.mkdir with exist_ok for a child of a direct child
directory (a category or date-bucket folder). -/
@[irreducible] def mkdirSub (s : State) (root sub : Name) : State :=
  if sub ∈ (s.dirs root).dsubs then s
  else ⟨s.files, s.dirNames,
    Function.update s.dirs root
      ⟨(s.dirs root).dfiles, insert sub (s.dirs root).dsubs,
       Function.update (s.dirs root).dsub sub ∅⟩⟩

/-- Embeds FileOrganizer.create_organized_structure: ensure the Organized
root exists, then every category folder and Others. -/
def categoryDirs : List Name :=
  fileTypes.map (fun p => p.1.toList) ++ ["Others".toList]

/-- Helper of create_organized_structure: ensure each folder of l exists
inside the Organized root. -/
def createFold (s : State) (l : List Name) : State :=
  l.foldl (fun st c => mkdirSub st orgRoot c) s

/-- Embeds FileOrganizer.create_organized_structure. -/
def create_organized_structure (s : State) : State :=
  createFold (mkdirRoot s orgRoot) categoryDirs

/-- Outcome of one organize pass: final state, names moved (in order,
each success is one informational log line and one increment of the
moved counter), and names whose moves failed (one error log line each).
The final summary line reports the length of moved. -/
structure RunResult where
  state : State
  moved : List Name
  errors : List Name

/-- Embeds shutil.move of the direct child file name into subdirectory
sub of direct child directory root, under destination name dest. -/
def moveFile (s : State) (name root sub dest : Name) : State :=
  ⟨s.files.erase name, s.dirNames,
    Function.update s.dirs root
      ⟨(s.dirs root).dfiles, (s.dirs root).dsubs,
       Function.update (s.dirs root).dsub sub (insert dest ((s.dirs root).dsub sub))⟩⟩

/-- Per-file body of the organize_by_type loop: classify, resolve the
destination against the current contents of the category folder, then
move; a move failure (oracle fails) leaves the state unchanged and logs
the name as an error. -/
def orgTypeStep (fails : Name → Bool) (acc : RunResult) (name : Name) : RunResult :=
  if fails name then ⟨acc.state, acc.moved, acc.errors ++ [name]⟩
  else ⟨moveFile acc.state name orgRoot ((get_file_category name).toList)
      (resolveCollision
        ((acc.state.dirs orgRoot).dsub ((get_file_category name).toList)) name),
    acc.moved ++ [name], acc.errors⟩

/-- The direct child files visited by an organize pass: every direct
child file except the one named .DS_Store (subdirectories are not files
and are skipped by the is_file test). -/
def eligible (s : State) : List Name := s.files.filter (fun n => decide (n ≠ dsStore))

/-- The per-file loop of organize_by_type over a snapshot of names. -/
def orgTypeFold (fails : Name → Bool) (acc : RunResult) (todo : List Name) : RunResult :=
  todo.foldl (orgTypeStep fails) acc

/-- Embeds FileOrganizer.organize_by_type on an existing source
directory: create the organized structure, then process each eligible
direct child file in order. -/
def organize_by_type (fails : Name → Bool) (s : State) : RunResult :=
  orgTypeFold fails ⟨create_organized_structure s, [], []⟩
    (eligible (create_organized_structure s))

/-- Per-file body of the organize_by_date loop: bucket by creation time,
ensure the bucket folder exists (this happens before the try block, so
it persists even when the move then fails), resolve, move. -/
def orgDateStep (ctime : Name → Nat) (fails : Name → Bool)
    (acc : RunResult) (name : Name) : RunResult :=
  if fails name then
    ⟨mkdirSub acc.state dateRoot (yearMonthLabel (ctime name)), acc.moved,
      acc.errors ++ [name]⟩
  else
    ⟨moveFile (mkdirSub acc.state dateRoot (yearMonthLabel (ctime name))) name
        dateRoot (yearMonthLabel (ctime name))
        (resolveCollision
          (((mkdirSub acc.state dateRoot (yearMonthLabel (ctime name))).dirs
              dateRoot).dsub (yearMonthLabel (ctime name))) name),
      acc.moved ++ [name], acc.errors⟩

/-- The per-file loop of organize_by_date over a snapshot of names. -/
def orgDateFold (ctime : Name → Nat) (fails : Name → Bool)
    (acc : RunResult) (todo : List Name) : RunResult :=
  todo.foldl (orgDateStep ctime fails) acc

/-- Embeds FileOrganizer.organize_by_date on an existing source
directory, with ctime giving each file its creation time in seconds of
local time since the epoch. -/
def organize_by_date (ctime : Name → Nat) (fails : Name → Bool) (s : State) : RunResult :=
  orgDateFold ctime fails ⟨mkdirRoot s dateRoot, [], []⟩
    (eligible (mkdirRoot s dateRoot))

/-- Outcome of clean_empty_folders: final state, folders removed (each
one log line plus the removed counter), folders whose removal failed. -/
structure CleanResult where
  state : State
  removed : Finset Name
  errors : Finset Name

/-- Embeds the emptiness test of FileOrganizer.clean_empty_folders: the
direct child directories of the source that have no entries at all.
Each judgement depends only on that directory, so the live loop of the
source agrees with this set formulation. -/
def emptyFolderSet (s : State) : Finset Name :=
  s.dirNames.filter (fun n => (s.dirs n).dfiles = ∅ ∧ (s.dirs n).dsubs = ∅)

/-- Embeds FileOrganizer.clean_empty_folders, continued: the folders
actually removed are the empty ones whose rmdir does not fail. -/
def clean_empty_folders (rmFails : Name → Bool) (s : State) : CleanResult :=
  ⟨⟨s.files, s.dirNames \ (emptyFolderSet s).filter (fun n => rmFails n = false),
     s.dirs⟩,
    (emptyFolderSet s).filter (fun n => rmFails n = false),
    (emptyFolderSet s).filter (fun n => rmFails n = true)⟩

/-- Embeds the missing-source guard of organize_by_type: when the source
directory does not exist (none), an error is logged (the boolean), no
state exists to change, and zero files are moved; otherwise run the
pass.  The surrounding process exits normally in both cases. -/
def organize_by_type_main (fails : Name → Bool) :
    Option State → Option State × Nat × Bool
  | none => (none, 0, true)
  | some s =>
    let r := organize_by_type fails s
    (some r.state, r.moved.length, false)

/-- Embeds the missing-source guard of organize_by_date, as for
organize_by_type_main. -/
def organize_by_date_main (ctime : Name → Nat) (fails : Name → Bool) :
    Option State → Option State × Nat × Bool
  | none => (none, 0, true)
  | some s =>
    let r := organize_by_date ctime fails s
    (some r.state, r.moved.length, false)

/-! ### Lemmas about decimal rendering -/

theorem fmtCore_acc (fuel : Nat) :
    ∀ n acc, fmtCore fuel n acc = fmtCore fuel n [] ++ acc := by
  induction fuel with
  | zero => intro n acc; simp [fmtCore]
  | succ f ih =>
    intro n acc
    simp only [fmtCore]
    by_cases h : n < 10
    · simp [h]
    · simp only [if_neg h]
      rw [ih (n / 10) (Nat.digitChar (n % 10) :: acc),
        ih (n / 10) [Nat.digitChar (n % 10)]]
      simp

theorem fmtCore_eq_fmtNat (n : Nat) :
    ∀ fuel, n < fuel → fmtCore fuel n [] = fmtNat n := by
  induction n using Nat.strong_induction_on with
  | _ n ih =>
    intro fuel hf
    match fuel, hf with
    | f + 1, hf =>
      by_cases h : n < 10
      · simp [fmtCore, fmtNat, h]
      · have h10 : 10 ≤ n := Nat.le_of_not_lt h
        have hdivn : n / 10 < n := Nat.div_lt_self (by omega) (by omega)
        have hdivf : n / 10 < f := by omega
        simp only [fmtCore, if_neg h, fmtNat]
        rw [fmtCore_acc, fmtCore_acc n (n / 10)]
        rw [ih (n / 10) hdivn f hdivf, ih (n / 10) hdivn n (by omega)]

theorem fmtNat_of_lt (n : Nat) (h : n < 10) : fmtNat n = [Nat.digitChar n] := by
  simp [fmtNat, fmtCore, h]

theorem fmtNat_of_ge (n : Nat) (h : 10 ≤ n) :
    fmtNat n = fmtNat (n / 10) ++ [Nat.digitChar (n % 10)] := by
  have hdivn : n / 10 < n := Nat.div_lt_self (by omega) (by omega)
  conv =>
    lhs
    rw [fmtNat]
  simp only [fmtCore, if_neg (Nat.not_lt.mpr h)]
  rw [fmtCore_acc, fmtCore_eq_fmtNat (n / 10) n (by omega)]

theorem digitChar_toNat (d : Nat) (h : d < 10) : (Nat.digitChar d).toNat = 48 + d := by
  interval_cases d <;> rfl

theorem decVal_fmtNat (n : Nat) : decVal (fmtNat n) = n := by
  induction n using Nat.strong_induction_on with
  | _ n ih =>
    by_cases h : n < 10
    · rw [fmtNat_of_lt n h]
      simp [decVal, digitChar_toNat n h]
    · have h10 : 10 ≤ n := Nat.le_of_not_lt h
      have hdivn : n / 10 < n := Nat.div_lt_self (by omega) (by omega)
      rw [fmtNat_of_ge n h10]
      have hmod : n % 10 < 10 := Nat.mod_lt n (by omega)
      simp only [decVal, List.foldl_append] at ih ⊢
      rw [ih (n / 10) hdivn]
      simp [digitChar_toNat (n % 10) hmod]
      omega

theorem fmtNat_injective : Function.Injective fmtNat := by
  intro a b h
  have ha := decVal_fmtNat a
  rw [h, decVal_fmtNat b] at ha
  omega

theorem mem_fmtNat_digit (n : Nat) : ∀ c ∈ fmtNat n, ∃ d, d < 10 ∧ c = Nat.digitChar d := by
  induction n using Nat.strong_induction_on with
  | _ n ih =>
    intro c hc
    by_cases h : n < 10
    · rw [fmtNat_of_lt n h] at hc
      simp at hc
      exact ⟨n, h, hc⟩
    · have h10 : 10 ≤ n := Nat.le_of_not_lt h
      have hdivn : n / 10 < n := Nat.div_lt_self (by omega) (by omega)
      rw [fmtNat_of_ge n h10] at hc
      rcases List.mem_append.mp hc with hc | hc
      · exact ih (n / 10) hdivn c hc
      · simp at hc
        exact ⟨n % 10, Nat.mod_lt n (by omega), hc⟩

theorem dash_not_mem_fmtNat (n : Nat) : '-' ∉ fmtNat n := by
  intro hmem
  obtain ⟨d, hd, hcd⟩ := mem_fmtNat_digit n '-' hmem
  interval_cases d <;> exact absurd hcd (by decide)

theorem sep_split :
    ∀ a b : List Char, ∀ u v : List Char, '-' ∉ a → '-' ∉ b →
      a ++ '-' :: u = b ++ '-' :: v → a = b ∧ u = v := by
  intro a
  induction a with
  | nil =>
    intro b u v _ hb h
    cases b with
    | nil => simpa using h
    | cons c bs =>
      simp only [List.nil_append, List.cons_append, List.cons.injEq] at h
      exact absurd (h.1 ▸ List.mem_cons_self c bs) hb
  | cons c as ih =>
    intro b u v ha hb h
    cases b with
    | nil =>
      simp only [List.cons_append, List.nil_append, List.cons.injEq] at h
      exact absurd (h.1 ▸ List.mem_cons_self c as) ha
    | cons d bs =>
      simp only [List.cons_append, List.cons.injEq] at h
      obtain ⟨h1, h2⟩ := h
      have := ih bs u v (fun hm => ha (List.mem_cons_of_mem c hm))
        (fun hm => hb (h1 ▸ List.mem_cons_of_mem d hm)) h2
      exact ⟨by rw [h1, this.1], this.2⟩

/-! ### Lemmas about the destination resolver -/

theorem cand_injective (p : Name × Name) : Function.Injective (cand p) := by
  intro m n h
  match m, n with
  | 0, 0 => rfl
  | 0, k + 1 =>
    exfalso
    simp only [cand] at h
    have := List.append_cancel_left h
    have hlen := congrArg List.length this
    simp at hlen
    omega
  | k + 1, 0 =>
    exfalso
    simp only [cand] at h
    have := List.append_cancel_left h
    have hlen := congrArg List.length this
    simp at hlen
    omega
  | k + 1, j + 1 =>
    simp only [cand] at h
    have h1 := List.append_cancel_left h
    simp only [List.cons.injEq, true_and] at h1
    have h2 := List.append_cancel_right h1
    have := fmtNat_injective h2
    omega

theorem resolveAux_spec (occ : Finset Name) (p : Name × Name) :
    ∀ fuel k, (∃ i, i < fuel ∧ cand p (k + i) ∉ occ) →
      ∃ i, i < fuel ∧ resolveAux occ p fuel k = cand p (k + i) ∧
        cand p (k + i) ∉ occ ∧ ∀ j, j < i → cand p (k + j) ∈ occ := by
  intro fuel
  induction fuel with
  | zero =>
    intro k h
    obtain ⟨i, hi, _⟩ := h
    omega
  | succ f ih =>
    intro k h
    by_cases hk : cand p k ∈ occ
    · obtain ⟨i, hi, hfree⟩ := h
      have hi0 : i ≠ 0 := by
        intro h0
        rw [h0, Nat.add_zero] at hfree
        exact hfree hk
      obtain ⟨j, rfl⟩ : ∃ j, i = j + 1 := ⟨i - 1, by omega⟩
      have hex : ∃ i, i < f ∧ cand p (k + 1 + i) ∉ occ := by
        refine ⟨j, by omega, ?_⟩
        have : k + 1 + j = k + (j + 1) := by omega
        rw [this]
        exact hfree
      obtain ⟨i2, hi2, heq, hfree2, hall⟩ := ih (k + 1) hex
      refine ⟨i2 + 1, by omega, ?_, ?_, ?_⟩
      · simp only [resolveAux, if_pos hk]
        rw [heq]
        congr 1
        omega
      · have : k + (i2 + 1) = k + 1 + i2 := by omega
        rw [this]
        exact hfree2
      · intro j2 hj2
        match j2, hj2 with
        | 0, _ => simpa using hk
        | j3 + 1, hj3 =>
          have : k + (j3 + 1) = k + 1 + j3 := by omega
          rw [this]
          exact hall j3 (by omega)
    · exact ⟨0, by omega, by simp [resolveAux, hk], by simpa using hk, by omega⟩

theorem exists_free_cand (occ : Finset Name) (p : Name × Name) :
    ∃ i, i < occ.card + 1 ∧ cand p i ∉ occ := by
  by_contra hcon
  push_neg at hcon
  have hsub : (Finset.range (occ.card + 1)).image (cand p) ⊆ occ := by
    intro x hx
    obtain ⟨i, hi, rfl⟩ := Finset.mem_image.mp hx
    exact hcon i (Finset.mem_range.mp hi)
  have hcard : ((Finset.range (occ.card + 1)).image (cand p)).card = occ.card + 1 := by
    rw [Finset.card_image_of_injective _ (cand_injective p), Finset.card_range]
  have := Finset.card_le_card hsub
  omega

theorem resolveCollision_spec (occ : Finset Name) (name : Name) :
    ∃ k, k ≤ occ.card ∧ resolveCollision occ name = cand (pathSplit name) k ∧
      cand (pathSplit name) k ∉ occ ∧
      ∀ j, j < k → cand (pathSplit name) j ∈ occ := by
  have hex : ∃ i, i < occ.card + 1 ∧ cand (pathSplit name) (0 + i) ∉ occ := by
    obtain ⟨i, hi, hf⟩ := exists_free_cand occ (pathSplit name)
    exact ⟨i, hi, by simpa using hf⟩
  obtain ⟨i, hi, heq, hfree, hall⟩ :=
    resolveAux_spec occ (pathSplit name) (occ.card + 1) 0 hex
  refine ⟨i, by omega, ?_, by simpa using hfree, ?_⟩
  · simpa [resolveCollision] using heq
  · intro j hj
    simpa using hall j hj

theorem pathSplit_append (name : Name) :
    (pathSplit name).1 ++ (pathSplit name).2 = name := by
  unfold pathSplit
  cases lastDotPos name with
  | none => simp
  | some i =>
    by_cases h : 0 < i ∧ i < name.length - 1
    · simp [h, List.take_append_drop]
    · simp [h]

theorem cand_zero (name : Name) : cand (pathSplit name) 0 = name := by
  simp [cand, pathSplit_append]

theorem resolveCollision_not_mem (occ : Finset Name) (name : Name) :
    resolveCollision occ name ∉ occ := by
  obtain ⟨k, _, heq, hfree, _⟩ := resolveCollision_spec occ name
  rw [heq]
  exact hfree

theorem resolveCollision_of_not_mem (occ : Finset Name) (name : Name)
    (h : name ∉ occ) : resolveCollision occ name = name := by
  obtain ⟨k, _, heq, hfree, hall⟩ := resolveCollision_spec occ name
  match k, heq, hall with
  | 0, heq, _ => rw [heq, cand_zero]
  | k + 1, _, hall =>
    exact absurd (by simpa [cand_zero] using hall 0 (by omega)) h

/-! ### Lemmas about the date bucketer -/

theorem civilFromDays_month_range (z : Nat) :
    1 ≤ (civilFromDays z).2 ∧ (civilFromDays z).2 ≤ 12 := by
  unfold civilFromDays
  simp only []
  split <;> omega

theorem yearMonthLabel_parts_inj (y1 m1 y2 m2 : Nat)
    (hm1a : 1 ≤ m1) (hm1b : m1 ≤ 12) (hm2a : 1 ≤ m2) (hm2b : m2 ≤ 12)
    (h : fmtNat y1 ++ '-' :: pad2 m1 = fmtNat y2 ++ '-' :: pad2 m2) :
    y1 = y2 ∧ m1 = m2 := by
  obtain ⟨h1, h2⟩ := sep_split (fmtNat y1) (fmtNat y2) (pad2 m1) (pad2 m2)
    (dash_not_mem_fmtNat y1) (dash_not_mem_fmtNat y2) h
  refine ⟨fmtNat_injective h1, ?_⟩
  interval_cases m1 <;> interval_cases m2 <;> revert h2 <;> decide

theorem yearMonthLabel_eq_iff (t1 t2 : Nat) :
    yearMonthLabel t1 = yearMonthLabel t2 ↔
      civilFromDays (t1 / 86400) = civilFromDays (t2 / 86400) := by
  constructor
  · intro h
    have r1 := civilFromDays_month_range (t1 / 86400)
    have r2 := civilFromDays_month_range (t2 / 86400)
    unfold yearMonthLabel at h
    obtain ⟨hy, hm⟩ := yearMonthLabel_parts_inj _ _ _ _ r1.1 r1.2 r2.1 r2.2 h
    exact Prod.ext hy hm
  · intro h
    unfold yearMonthLabel
    rw [h]

/-! ### Lemmas about the classifier -/

theorem categoryLookup_table : ∀ p ∈ fileTypes, ∀ x ∈ p.2, categoryLookup x = p.1 := by
  decide

theorem categoryLookup_others (e : Name) (h : ∀ p ∈ fileTypes, e ∉ p.2) :
    categoryLookup e = "Others" := by
  unfold categoryLookup
  have hnone : fileTypes.find? (fun p => decide (e ∈ p.2)) = none := by
    rw [List.find?_eq_none]
    intro p hp
    simpa using h p hp
  rw [hnone]

theorem categoryLookup_mem (e : Name) : (categoryLookup e).toList ∈ categoryDirs := by
  unfold categoryLookup categoryDirs
  cases hfind : fileTypes.find? (fun p => decide (e ∈ p.2)) with
  | none => simp
  | some p =>
    have hp : p ∈ fileTypes := List.mem_of_find?_eq_some hfind
    exact List.mem_append.mpr (Or.inl (List.mem_map_of_mem _ hp))

theorem get_file_category_mem (name : Name) :
    (get_file_category name).toList ∈ categoryDirs := by
  unfold get_file_category categoryOfExt
  exact categoryLookup_mem _

/-! ### Counting lemmas for the filesystem state -/

theorem sum_card_update_add (subs : Finset Name) (f : Name → Finset Name)
    (sub : Name) (v : Finset Name) (k : Nat) (hmem : sub ∈ subs)
    (hv : v.card = (f sub).card + k) :
    ∑ y ∈ subs, (Function.update f sub v y).card = (∑ y ∈ subs, (f y).card) + k := by
  rw [← Finset.add_sum_erase subs (fun y => (Function.update f sub v y).card) hmem,
    ← Finset.add_sum_erase subs (fun y => (f y).card) hmem]
  rw [Function.update_same]
  have hcong : ∑ y ∈ subs.erase sub, (Function.update f sub v y).card
      = ∑ y ∈ subs.erase sub, (f y).card := by
    refine Finset.sum_congr rfl ?_
    intro y hy
    rw [Function.update_noteq (Finset.ne_of_mem_erase hy)]
  rw [hcong]
  omega

theorem sum_dirSize_update_add (dn : Finset Name) (dirs : Name → Dir1)
    (root : Name) (d2 : Dir1) (k : Nat) (hmem : root ∈ dn)
    (hv : dirSize d2 = dirSize (dirs root) + k) :
    ∑ x ∈ dn, dirSize (Function.update dirs root d2 x)
      = (∑ x ∈ dn, dirSize (dirs x)) + k := by
  rw [← Finset.add_sum_erase dn (fun x => dirSize (Function.update dirs root d2 x)) hmem,
    ← Finset.add_sum_erase dn (fun x => dirSize (dirs x)) hmem]
  rw [Function.update_same]
  have hcong : ∑ x ∈ dn.erase root, dirSize (Function.update dirs root d2 x)
      = ∑ x ∈ dn.erase root, dirSize (dirs x) := by
    refine Finset.sum_congr rfl ?_
    intro x hx
    rw [Function.update_noteq (Finset.ne_of_mem_erase hx)]
  rw [hcong]
  omega

theorem sum_dirSize_update_not_mem (dn : Finset Name) (dirs : Name → Dir1)
    (root : Name) (d2 : Dir1) (hmem : root ∉ dn) :
    ∑ x ∈ dn, dirSize (Function.update dirs root d2 x)
      = ∑ x ∈ dn, dirSize (dirs x) := by
  refine Finset.sum_congr rfl ?_
  intro x hx
  have hne : x ≠ root := by
    intro hc
    rw [hc] at hx
    exact hmem hx
  rw [Function.update_noteq hne]

/-! ### Lemmas about mkdir -/

theorem mkdirRoot_files (s : State) (n : Name) : (mkdirRoot s n).files = s.files := by
  unfold mkdirRoot
  split <;> rfl

theorem mkdirRoot_mem (s : State) (n : Name) : n ∈ (mkdirRoot s n).dirNames := by
  unfold mkdirRoot
  split
  · assumption
  · exact Finset.mem_insert_self n s.dirNames

theorem mkdirRoot_total (s : State) (n : Name) :
    totalFiles (mkdirRoot s n) = totalFiles s := by
  unfold mkdirRoot
  split
  · rfl
  · rename_i h
    simp only [totalFiles]
    rw [Finset.sum_insert h]
    have h0 : dirSize (Function.update s.dirs n emptyDir n) = 0 := by
      rw [Function.update_same]
      simp [dirSize, emptyDir]
    rw [h0]
    have hc : ∑ d ∈ s.dirNames, dirSize (Function.update s.dirs n emptyDir d)
        = ∑ d ∈ s.dirNames, dirSize (s.dirs d) :=
      sum_dirSize_update_not_mem s.dirNames s.dirs n emptyDir h
    rw [hc]
    omega

theorem mkdirSub_files (s : State) (root sub : Name) :
    (mkdirSub s root sub).files = s.files := by
  unfold mkdirSub
  split <;> rfl

theorem mkdirSub_dirNames (s : State) (root sub : Name) :
    (mkdirSub s root sub).dirNames = s.dirNames := by
  unfold mkdirSub
  split <;> rfl

theorem mkdirSub_sub_mem (s : State) (root sub : Name) :
    sub ∈ ((mkdirSub s root sub).dirs root).dsubs := by
  unfold mkdirSub
  split
  · assumption
  · simp [Function.update_same]

theorem mkdirSub_sub_mono (s : State) (root sub c : Name)
    (h : c ∈ (s.dirs root).dsubs) : c ∈ ((mkdirSub s root sub).dirs root).dsubs := by
  unfold mkdirSub
  split
  · exact h
  · simp [Function.update_same, h]

theorem mkdirSub_newdir_size (s : State) (root sub : Name)
    (h : sub ∉ (s.dirs root).dsubs) :
    dirSize ⟨(s.dirs root).dfiles, insert sub (s.dirs root).dsubs,
      Function.update (s.dirs root).dsub sub ∅⟩ = dirSize (s.dirs root) := by
  simp only [dirSize]
  rw [Finset.sum_insert h, Function.update_same]
  have hcong : ∑ y ∈ (s.dirs root).dsubs,
      (Function.update (s.dirs root).dsub sub ∅ y).card
      = ∑ y ∈ (s.dirs root).dsubs, ((s.dirs root).dsub y).card := by
    refine Finset.sum_congr rfl ?_
    intro y hy
    have hne : y ≠ sub := by
      intro hc
      rw [hc] at hy
      exact h hy
    rw [Function.update_noteq hne]
  rw [hcong]
  simp

theorem mkdirSub_total (s : State) (root sub : Name) :
    totalFiles (mkdirSub s root sub) = totalFiles s := by
  unfold mkdirSub
  split
  · rfl
  · rename_i h
    simp only [totalFiles]
    by_cases hroot : root ∈ s.dirNames
    · rw [sum_dirSize_update_add s.dirNames s.dirs root _ 0 hroot
        (by simpa using mkdirSub_newdir_size s root sub h)]
      omega
    · rw [sum_dirSize_update_not_mem s.dirNames s.dirs root _ hroot]

/-! ### Lemmas about moveFile -/

theorem moveFile_dirNames (s : State) (name root sub dest : Name) :
    (moveFile s name root sub dest).dirNames = s.dirNames := rfl

theorem moveFile_files (s : State) (name root sub dest : Name) :
    (moveFile s name root sub dest).files = s.files.erase name := rfl

theorem moveFile_dsubs (s : State) (name root sub dest : Name) :
    ((moveFile s name root sub dest).dirs root).dsubs = (s.dirs root).dsubs := by
  simp [moveFile, Function.update_same]

theorem moveFile_total (s : State) (name root sub dest : Name)
    (hname : name ∈ s.files) (hroot : root ∈ s.dirNames)
    (hsub : sub ∈ (s.dirs root).dsubs) (hdest : dest ∉ (s.dirs root).dsub sub) :
    totalFiles (moveFile s name root sub dest) = totalFiles s := by
  simp only [moveFile, totalFiles]
  rw [List.length_erase_of_mem hname]
  rw [sum_dirSize_update_add s.dirNames s.dirs root _ 1 hroot ?_]
  · have hpos : 0 < s.files.length := List.length_pos_of_mem hname
    omega
  · simp only [dirSize]
    rw [sum_card_update_add (s.dirs root).dsubs (s.dirs root).dsub sub _ 1 hsub
      (Finset.card_insert_of_not_mem hdest)]
    omega

/-! ### Lemmas about create_organized_structure -/

theorem mkdirRoot_id (s : State) (n : Name) (h : n ∈ s.dirNames) :
    mkdirRoot s n = s := by
  unfold mkdirRoot
  rw [if_pos h]

theorem mkdirSub_id (s : State) (root sub : Name) (h : sub ∈ (s.dirs root).dsubs) :
    mkdirSub s root sub = s := by
  unfold mkdirSub
  rw [if_pos h]

theorem createFold_nil (s : State) : createFold s [] = s := rfl

theorem createFold_cons (s : State) (c : Name) (cs : List Name) :
    createFold s (c :: cs) = createFold (mkdirSub s orgRoot c) cs := rfl

theorem createFold_spec :
    ∀ (l : List Name) (s : State),
      (createFold s l).files = s.files ∧
      (createFold s l).dirNames = s.dirNames ∧
      totalFiles (createFold s l) = totalFiles s ∧
      (∀ c, c ∈ (s.dirs orgRoot).dsubs → c ∈ ((createFold s l).dirs orgRoot).dsubs) ∧
      (∀ c ∈ l, c ∈ ((createFold s l).dirs orgRoot).dsubs) := by
  intro l
  induction l with
  | nil =>
    intro s
    exact ⟨rfl, rfl, rfl, fun c hc => hc, by simp⟩
  | cons c cs ih =>
    intro s
    rw [createFold_cons]
    obtain ⟨h1, h2, h3, h4, h5⟩ := ih (mkdirSub s orgRoot c)
    refine ⟨?_, ?_, ?_, ?_, ?_⟩
    · rw [h1, mkdirSub_files]
    · rw [h2, mkdirSub_dirNames]
    · rw [h3, mkdirSub_total]
    · intro c2 hc2
      exact h4 c2 (mkdirSub_sub_mono s orgRoot c c2 hc2)
    · intro c2 hc2
      rcases List.mem_cons.mp hc2 with rfl | hcs
      · exact h4 c2 (mkdirSub_sub_mem s orgRoot c2)
      · exact h5 c2 hcs

theorem createFold_id :
    ∀ (l : List Name) (s : State), (∀ c ∈ l, c ∈ (s.dirs orgRoot).dsubs) →
      createFold s l = s := by
  intro l
  induction l with
  | nil => intro s _; rfl
  | cons c cs ih =>
    intro s h
    rw [createFold_cons, mkdirSub_id s orgRoot c (h c (List.mem_cons_self c cs))]
    exact ih s (fun c2 hc2 => h c2 (List.mem_cons_of_mem c hc2))

theorem create_organized_structure_eq (s : State) :
    create_organized_structure s = createFold (mkdirRoot s orgRoot) categoryDirs := rfl

theorem create_organized_structure_files (s : State) :
    (create_organized_structure s).files = s.files := by
  rw [create_organized_structure_eq,
    (createFold_spec categoryDirs (mkdirRoot s orgRoot)).1, mkdirRoot_files]

theorem create_organized_structure_total (s : State) :
    totalFiles (create_organized_structure s) = totalFiles s := by
  rw [create_organized_structure_eq,
    (createFold_spec categoryDirs (mkdirRoot s orgRoot)).2.2.1, mkdirRoot_total]

theorem create_organized_structure_root_mem (s : State) :
    orgRoot ∈ (create_organized_structure s).dirNames := by
  rw [create_organized_structure_eq,
    (createFold_spec categoryDirs (mkdirRoot s orgRoot)).2.1]
  exact mkdirRoot_mem s orgRoot

theorem create_organized_structure_cats (s : State) :
    ∀ c ∈ categoryDirs, c ∈ ((create_organized_structure s).dirs orgRoot).dsubs := by
  rw [create_organized_structure_eq]
  exact (createFold_spec categoryDirs (mkdirRoot s orgRoot)).2.2.2.2

theorem create_organized_structure_id (s : State)
    (h1 : orgRoot ∈ s.dirNames)
    (h2 : ∀ c ∈ categoryDirs, c ∈ (s.dirs orgRoot).dsubs) :
    create_organized_structure s = s := by
  rw [create_organized_structure_eq, mkdirRoot_id s orgRoot h1]
  exact createFold_id categoryDirs s h2

/-! ### The organize_by_type fold -/

theorem orgTypeFold_nil (fails : Name → Bool) (acc : RunResult) :
    orgTypeFold fails acc [] = acc := rfl

theorem orgTypeFold_cons (fails : Name → Bool) (acc : RunResult)
    (name : Name) (rest : List Name) :
    orgTypeFold fails acc (name :: rest)
      = orgTypeFold fails (orgTypeStep fails acc name) rest := rfl

theorem orgTypeFold_spec (fails : Name → Bool) :
    ∀ (todo : List Name) (st : State) (mv er : List Name),
      todo.Nodup → (∀ x ∈ todo, x ∈ st.files) → st.files.Nodup →
      orgRoot ∈ st.dirNames →
      (∀ c ∈ categoryDirs, c ∈ (st.dirs orgRoot).dsubs) →
      totalFiles (orgTypeFold fails ⟨st, mv, er⟩ todo).state = totalFiles st ∧
      (orgTypeFold fails ⟨st, mv, er⟩ todo).moved
        = mv ++ todo.filter (fun n => !fails n) ∧
      (orgTypeFold fails ⟨st, mv, er⟩ todo).errors
        = er ++ todo.filter fails ∧
      (orgTypeFold fails ⟨st, mv, er⟩ todo).state.dirNames = st.dirNames ∧
      ((orgTypeFold fails ⟨st, mv, er⟩ todo).state.dirs orgRoot).dsubs
        = (st.dirs orgRoot).dsubs ∧
      (orgTypeFold fails ⟨st, mv, er⟩ todo).state.files.Nodup ∧
      (∀ x, x ∈ (orgTypeFold fails ⟨st, mv, er⟩ todo).state.files ↔
        (x ∈ st.files ∧ ¬(x ∈ todo ∧ fails x = false))) := by
  intro todo
  induction todo with
  | nil =>
    intro st mv er _ _ hnd _ _
    refine ⟨rfl, by simp [orgTypeFold_nil], by simp [orgTypeFold_nil], rfl, rfl, hnd, ?_⟩
    intro x
    simp [orgTypeFold_nil]
  | cons name rest ih =>
    intro st mv er hnodup hsub hnd hroot hcats
    rw [orgTypeFold_cons]
    by_cases hf : fails name = true
    · have hstep : orgTypeStep fails ⟨st, mv, er⟩ name = ⟨st, mv, er ++ [name]⟩ := by
        simp [orgTypeStep, hf]
      rw [hstep]
      obtain ⟨h1, h2, h3, h4, h5, h6, h7⟩ :=
        ih st mv (er ++ [name]) hnodup.of_cons
          (fun x hx => hsub x (List.mem_cons_of_mem _ hx)) hnd hroot hcats
      refine ⟨h1, ?_, ?_, h4, h5, h6, ?_⟩
      · rw [h2]
        simp [List.filter_cons, hf]
      · rw [h3]
        simp [List.filter_cons, hf]
      · intro x
        rw [h7 x]
        constructor
        · rintro ⟨hxf, hnx⟩
          refine ⟨hxf, ?_⟩
          rintro ⟨hxmem, hxfail⟩
          rcases List.mem_cons.mp hxmem with rfl | hxr
          · rw [hf] at hxfail
            cases hxfail
          · exact hnx ⟨hxr, hxfail⟩
        · rintro ⟨hxf, hnx⟩
          exact ⟨hxf, fun hc => hnx ⟨List.mem_cons_of_mem _ hc.1, hc.2⟩⟩
    · have hf0 : fails name = false := by
        cases hfn : fails name
        · rfl
        · exact absurd hfn hf
      have hstep : orgTypeStep fails ⟨st, mv, er⟩ name
          = ⟨moveFile st name orgRoot ((get_file_category name).toList)
              (resolveCollision
                ((st.dirs orgRoot).dsub ((get_file_category name).toList)) name),
            mv ++ [name], er⟩ := by
        simp [orgTypeStep, hf0]
      rw [hstep]
      have hname : name ∈ st.files := hsub name (List.mem_cons_self _ _)
      have hnamenotin : name ∉ rest := (List.nodup_cons.mp hnodup).1
      have hcatmem : (get_file_category name).toList ∈ (st.dirs orgRoot).dsubs :=
        hcats _ (get_file_category_mem name)
      have hdestfree :
          resolveCollision
              ((st.dirs orgRoot).dsub ((get_file_category name).toList)) name
            ∉ (st.dirs orgRoot).dsub ((get_file_category name).toList) :=
        resolveCollision_not_mem _ _
      have htot := moveFile_total st name orgRoot ((get_file_category name).toList)
        (resolveCollision
          ((st.dirs orgRoot).dsub ((get_file_category name).toList)) name)
        hname hroot hcatmem hdestfree
      have hsub2 : ∀ x ∈ rest,
          x ∈ (moveFile st name orgRoot ((get_file_category name).toList)
            (resolveCollision
              ((st.dirs orgRoot).dsub ((get_file_category name).toList)) name)).files := by
        intro x hx
        rw [moveFile_files]
        have hxn : x ≠ name := by
          intro hc
          rw [hc] at hx
          exact hnamenotin hx
        exact (List.mem_erase_of_ne hxn).mpr (hsub x (List.mem_cons_of_mem _ hx))
      have hnd2 : (moveFile st name orgRoot ((get_file_category name).toList)
          (resolveCollision
            ((st.dirs orgRoot).dsub ((get_file_category name).toList)) name)).files.Nodup := by
        rw [moveFile_files]
        exact hnd.erase name
      have hcats2 : ∀ c ∈ categoryDirs,
          c ∈ ((moveFile st name orgRoot ((get_file_category name).toList)
            (resolveCollision
              ((st.dirs orgRoot).dsub ((get_file_category name).toList)) name)).dirs
                orgRoot).dsubs := by
        intro c hc
        rw [moveFile_dsubs]
        exact hcats c hc
      obtain ⟨h1, h2, h3, h4, h5, h6, h7⟩ :=
        ih (moveFile st name orgRoot ((get_file_category name).toList)
            (resolveCollision
              ((st.dirs orgRoot).dsub ((get_file_category name).toList)) name))
          (mv ++ [name]) er hnodup.of_cons hsub2 hnd2 hroot hcats2
      refine ⟨?_, ?_, ?_, ?_, ?_, h6, ?_⟩
      · rw [h1]
        exact htot
      · rw [h2]
        simp [List.filter_cons, hf0]
      · rw [h3]
        simp [List.filter_cons, hf0]
      · exact h4
      · rw [h5, moveFile_dsubs]
      · intro x
        rw [h7 x, moveFile_files, hnd.mem_erase_iff]
        constructor
        · rintro ⟨⟨hxn, hxf⟩, hnx⟩
          refine ⟨hxf, ?_⟩
          rintro ⟨hxmem, hxfail⟩
          rcases List.mem_cons.mp hxmem with rfl | hxr
          · exact hxn rfl
          · exact hnx ⟨hxr, hxfail⟩
        · rintro ⟨hxf, hnx⟩
          have hxn : x ≠ name := by
            intro hc
            exact hnx ⟨by rw [hc]; exact List.mem_cons_self _ _, by rw [hc]; exact hf0⟩
          exact ⟨⟨hxn, hxf⟩, fun hc => hnx ⟨List.mem_cons_of_mem _ hc.1, hc.2⟩⟩

/-! ### The organize_by_date fold -/

theorem orgDateFold_nil (ctime : Name → Nat) (fails : Name → Bool) (acc : RunResult) :
    orgDateFold ctime fails acc [] = acc := rfl

theorem orgDateFold_cons (ctime : Name → Nat) (fails : Name → Bool) (acc : RunResult)
    (name : Name) (rest : List Name) :
    orgDateFold ctime fails acc (name :: rest)
      = orgDateFold ctime fails (orgDateStep ctime fails acc name) rest := rfl

theorem orgDateFold_spec (ctime : Name → Nat) (fails : Name → Bool) :
    ∀ (todo : List Name) (st : State) (mv er : List Name),
      todo.Nodup → (∀ x ∈ todo, x ∈ st.files) → st.files.Nodup →
      dateRoot ∈ st.dirNames →
      totalFiles (orgDateFold ctime fails ⟨st, mv, er⟩ todo).state = totalFiles st ∧
      (orgDateFold ctime fails ⟨st, mv, er⟩ todo).moved
        = mv ++ todo.filter (fun n => !fails n) ∧
      (orgDateFold ctime fails ⟨st, mv, er⟩ todo).errors
        = er ++ todo.filter fails ∧
      (orgDateFold ctime fails ⟨st, mv, er⟩ todo).state.dirNames = st.dirNames ∧
      (orgDateFold ctime fails ⟨st, mv, er⟩ todo).state.files.Nodup ∧
      (∀ x, x ∈ (orgDateFold ctime fails ⟨st, mv, er⟩ todo).state.files ↔
        (x ∈ st.files ∧ ¬(x ∈ todo ∧ fails x = false))) := by
  intro todo
  induction todo with
  | nil =>
    intro st mv er _ _ hnd _
    refine ⟨rfl, by simp [orgDateFold_nil], by simp [orgDateFold_nil], rfl, hnd, ?_⟩
    intro x
    simp [orgDateFold_nil]
  | cons name rest ih =>
    intro st mv er hnodup hsub hnd hroot
    rw [orgDateFold_cons]
    have hs1files : (mkdirSub st dateRoot (yearMonthLabel (ctime name))).files = st.files :=
      mkdirSub_files st dateRoot (yearMonthLabel (ctime name))
    have hs1names : (mkdirSub st dateRoot (yearMonthLabel (ctime name))).dirNames = st.dirNames :=
      mkdirSub_dirNames st dateRoot (yearMonthLabel (ctime name))
    have hs1tot : totalFiles (mkdirSub st dateRoot (yearMonthLabel (ctime name))) = totalFiles st :=
      mkdirSub_total st dateRoot (yearMonthLabel (ctime name))
    by_cases hf : fails name = true
    · have hstep : orgDateStep ctime fails ⟨st, mv, er⟩ name
          = ⟨mkdirSub st dateRoot (yearMonthLabel (ctime name)), mv, er ++ [name]⟩ := by
        simp [orgDateStep, hf]
      rw [hstep]
      obtain ⟨h1, h2, h3, h4, h5, h6⟩ :=
        ih (mkdirSub st dateRoot (yearMonthLabel (ctime name))) mv (er ++ [name])
          hnodup.of_cons
          (fun x hx => by
            rw [hs1files]
            exact hsub x (List.mem_cons_of_mem _ hx))
          (by rw [hs1files]; exact hnd)
          (by rw [hs1names]; exact hroot)
      refine ⟨by rw [h1, hs1tot], ?_, ?_, by rw [h4, hs1names], h5, ?_⟩
      · rw [h2]
        simp [List.filter_cons, hf]
      · rw [h3]
        simp [List.filter_cons, hf]
      · intro x
        rw [h6 x, hs1files]
        constructor
        · rintro ⟨hxf, hnx⟩
          refine ⟨hxf, ?_⟩
          rintro ⟨hxmem, hxfail⟩
          rcases List.mem_cons.mp hxmem with rfl | hxr
          · rw [hf] at hxfail
            cases hxfail
          · exact hnx ⟨hxr, hxfail⟩
        · rintro ⟨hxf, hnx⟩
          exact ⟨hxf, fun hc => hnx ⟨List.mem_cons_of_mem _ hc.1, hc.2⟩⟩
    · have hf0 : fails name = false := by
        cases hfn : fails name
        · rfl
        · exact absurd hfn hf
      have hstep : orgDateStep ctime fails ⟨st, mv, er⟩ name
          = ⟨moveFile (mkdirSub st dateRoot (yearMonthLabel (ctime name))) name
              dateRoot (yearMonthLabel (ctime name))
              (resolveCollision
                (((mkdirSub st dateRoot (yearMonthLabel (ctime name))).dirs
                    dateRoot).dsub (yearMonthLabel (ctime name))) name),
            mv ++ [name], er⟩ := by
        simp [orgDateStep, hf0]
      rw [hstep]
      have hname : name ∈ (mkdirSub st dateRoot (yearMonthLabel (ctime name))).files := by
        rw [hs1files]
        exact hsub name (List.mem_cons_self _ _)
      have hnamenotin : name ∉ rest := (List.nodup_cons.mp hnodup).1
      have hroot1 : dateRoot ∈ (mkdirSub st dateRoot (yearMonthLabel (ctime name))).dirNames := by
        rw [hs1names]
        exact hroot
      have hsubmem : yearMonthLabel (ctime name)
          ∈ ((mkdirSub st dateRoot (yearMonthLabel (ctime name))).dirs dateRoot).dsubs :=
        mkdirSub_sub_mem st dateRoot (yearMonthLabel (ctime name))
      have hdestfree :
          resolveCollision
              (((mkdirSub st dateRoot (yearMonthLabel (ctime name))).dirs
                  dateRoot).dsub (yearMonthLabel (ctime name))) name
            ∉ ((mkdirSub st dateRoot (yearMonthLabel (ctime name))).dirs
                dateRoot).dsub (yearMonthLabel (ctime name)) :=
        resolveCollision_not_mem _ _
      have htot := moveFile_total (mkdirSub st dateRoot (yearMonthLabel (ctime name))) name
        dateRoot (yearMonthLabel (ctime name))
        (resolveCollision
          (((mkdirSub st dateRoot (yearMonthLabel (ctime name))).dirs
              dateRoot).dsub (yearMonthLabel (ctime name))) name)
        hname hroot1 hsubmem hdestfree
      have hsub2 : ∀ x ∈ rest,
          x ∈ (moveFile (mkdirSub st dateRoot (yearMonthLabel (ctime name))) name
            dateRoot (yearMonthLabel (ctime name))
            (resolveCollision
              (((mkdirSub st dateRoot (yearMonthLabel (ctime name))).dirs
                  dateRoot).dsub (yearMonthLabel (ctime name))) name)).files := by
        intro x hx
        rw [moveFile_files, hs1files]
        have hxn : x ≠ name := by
          intro hc
          rw [hc] at hx
          exact hnamenotin hx
        exact (List.mem_erase_of_ne hxn).mpr (hsub x (List.mem_cons_of_mem _ hx))
      have hnd2 : (moveFile (mkdirSub st dateRoot (yearMonthLabel (ctime name))) name
          dateRoot (yearMonthLabel (ctime name))
          (resolveCollision
            (((mkdirSub st dateRoot (yearMonthLabel (ctime name))).dirs
                dateRoot).dsub (yearMonthLabel (ctime name))) name)).files.Nodup := by
        rw [moveFile_files, hs1files]
        exact hnd.erase name
      obtain ⟨h1, h2, h3, h4, h5, h6⟩ :=
        ih (moveFile (mkdirSub st dateRoot (yearMonthLabel (ctime name))) name
            dateRoot (yearMonthLabel (ctime name))
            (resolveCollision
              (((mkdirSub st dateRoot (yearMonthLabel (ctime name))).dirs
                  dateRoot).dsub (yearMonthLabel (ctime name))) name))
          (mv ++ [name]) er hnodup.of_cons hsub2 hnd2
          (by rw [moveFile_dirNames, hs1names]; exact hroot)
      refine ⟨?_, ?_, ?_, ?_, h5, ?_⟩
      · rw [h1, htot, hs1tot]
      · rw [h2]
        simp [List.filter_cons, hf0]
      · rw [h3]
        simp [List.filter_cons, hf0]
      · rw [h4, moveFile_dirNames, hs1names]
      · intro x
        rw [h6 x, moveFile_files, hs1files, hnd.mem_erase_iff]
        constructor
        · rintro ⟨⟨hxn, hxf⟩, hnx⟩
          refine ⟨hxf, ?_⟩
          rintro ⟨hxmem, hxfail⟩
          rcases List.mem_cons.mp hxmem with rfl | hxr
          · exact hxn rfl
          · exact hnx ⟨hxr, hxfail⟩
        · rintro ⟨hxf, hnx⟩
          have hxn : x ≠ name := by
            intro hc
            exact hnx ⟨by rw [hc]; exact List.mem_cons_self _ _, by rw [hc]; exact hf0⟩
          exact ⟨⟨hxn, hxf⟩, fun hc => hnx ⟨List.mem_cons_of_mem _ hc.1, hc.2⟩⟩

/-! ### Assembled facts about the organize passes -/

theorem organize_by_type_eq (fails : Name → Bool) (s : State) :
    organize_by_type fails s
      = orgTypeFold fails ⟨create_organized_structure s, [], []⟩
          (eligible (create_organized_structure s)) := rfl

theorem organize_by_date_eq (ctime : Name → Nat) (fails : Name → Bool) (s : State) :
    organize_by_date ctime fails s
      = orgDateFold ctime fails ⟨mkdirRoot s dateRoot, [], []⟩
          (eligible (mkdirRoot s dateRoot)) := rfl

theorem eligible_mem (s : State) (x : Name) :
    x ∈ eligible s ↔ (x ∈ s.files ∧ x ≠ dsStore) := by
  unfold eligible
  simp

theorem eligible_nodup (s : State) (h : s.files.Nodup) : (eligible s).Nodup :=
  h.filter _

theorem eligible_create (s : State) :
    eligible (create_organized_structure s) = eligible s := by
  unfold eligible
  rw [create_organized_structure_files]

theorem eligible_mkdirRoot (s : State) (n : Name) :
    eligible (mkdirRoot s n) = eligible s := by
  unfold eligible
  rw [mkdirRoot_files]

theorem organize_by_type_run (fails : Name → Bool) (s : State) (hnd : s.files.Nodup) :
    totalFiles (organize_by_type fails s).state = totalFiles s ∧
    (organize_by_type fails s).moved = (eligible s).filter (fun n => !fails n) ∧
    (organize_by_type fails s).errors = (eligible s).filter fails ∧
    orgRoot ∈ (organize_by_type fails s).state.dirNames ∧
    (∀ c ∈ categoryDirs, c ∈ ((organize_by_type fails s).state.dirs orgRoot).dsubs) ∧
    (organize_by_type fails s).state.files.Nodup ∧
    (∀ x, x ∈ (organize_by_type fails s).state.files ↔
      (x ∈ s.files ∧ ¬(x ∈ eligible s ∧ fails x = false))) := by
  have hnd1 : (create_organized_structure s).files.Nodup := by
    rw [create_organized_structure_files]
    exact hnd
  have hsub : ∀ x ∈ eligible (create_organized_structure s),
      x ∈ (create_organized_structure s).files := by
    intro x hx
    exact ((eligible_mem _ x).mp hx).1
  obtain ⟨h1, h2, h3, h4, h5, h6, h7⟩ :=
    orgTypeFold_spec fails (eligible (create_organized_structure s))
      (create_organized_structure s) [] []
      (by rw [eligible_create]; exact eligible_nodup s hnd) hsub hnd1
      (create_organized_structure_root_mem s) (create_organized_structure_cats s)
  rw [organize_by_type_eq fails s]
  refine ⟨?_, ?_, ?_, ?_, ?_, h6, ?_⟩
  · rw [h1, create_organized_structure_total]
  · rw [h2, eligible_create]
    simp
  · rw [h3, eligible_create]
    simp
  · rw [h4]
    exact create_organized_structure_root_mem s
  · intro c hc
    rw [h5]
    exact create_organized_structure_cats s c hc
  · intro x
    rw [h7 x, create_organized_structure_files, eligible_create]

theorem organize_by_date_run (ctime : Name → Nat) (fails : Name → Bool) (s : State)
    (hnd : s.files.Nodup) :
    totalFiles (organize_by_date ctime fails s).state = totalFiles s ∧
    (organize_by_date ctime fails s).moved = (eligible s).filter (fun n => !fails n) ∧
    (organize_by_date ctime fails s).errors = (eligible s).filter fails ∧
    (organize_by_date ctime fails s).state.files.Nodup ∧
    (∀ x, x ∈ (organize_by_date ctime fails s).state.files ↔
      (x ∈ s.files ∧ ¬(x ∈ eligible s ∧ fails x = false))) := by
  have hnd1 : (mkdirRoot s dateRoot).files.Nodup := by
    rw [mkdirRoot_files]
    exact hnd
  have hsub : ∀ x ∈ eligible (mkdirRoot s dateRoot), x ∈ (mkdirRoot s dateRoot).files := by
    intro x hx
    exact ((eligible_mem _ x).mp hx).1
  obtain ⟨h1, h2, h3, h4, h5, h6⟩ :=
    orgDateFold_spec ctime fails (eligible (mkdirRoot s dateRoot))
      (mkdirRoot s dateRoot) [] []
      (by rw [eligible_mkdirRoot]; exact eligible_nodup s hnd) hsub hnd1
      (mkdirRoot_mem s dateRoot)
  rw [organize_by_date_eq ctime fails s]
  refine ⟨?_, ?_, ?_, h5, ?_⟩
  · rw [h1, mkdirRoot_total]
  · rw [h2, eligible_mkdirRoot]
    simp
  · rw [h3, eligible_mkdirRoot]
    simp
  · intro x
    rw [h6 x, mkdirRoot_files, eligible_mkdirRoot]

/-! ### Facts about the cleanup pass and reruns -/

theorem clean_files (rmFails : Name → Bool) (s : State) :
    (clean_empty_folders rmFails s).state.files = s.files := rfl

theorem clean_dirs (rmFails : Name → Bool) (s : State) :
    (clean_empty_folders rmFails s).state.dirs = s.dirs := rfl

theorem clean_dirNames (rmFails : Name → Bool) (s : State) :
    (clean_empty_folders rmFails s).state.dirNames
      = s.dirNames \ (emptyFolderSet s).filter (fun n => rmFails n = false) := rfl

theorem clean_removed (rmFails : Name → Bool) (s : State) :
    (clean_empty_folders rmFails s).removed
      = (emptyFolderSet s).filter (fun n => rmFails n = false) := rfl

theorem clean_errors_eq (rmFails : Name → Bool) (s : State) :
    (clean_empty_folders rmFails s).errors
      = (emptyFolderSet s).filter (fun n => rmFails n = true) := rfl

theorem eligible_eq_nil (s : State) (h : ∀ x ∈ s.files, x = dsStore) :
    eligible s = [] := by
  unfold eligible
  rw [List.filter_eq_nil_iff]
  intro a ha
  simp [h a ha]

theorem organize_by_type_noop (s : State) (fails : Name → Bool)
    (h1 : orgRoot ∈ s.dirNames) (h2 : ∀ c ∈ categoryDirs, c ∈ (s.dirs orgRoot).dsubs)
    (h3 : eligible s = []) :
    organize_by_type fails s = ⟨s, [], []⟩ := by
  rw [organize_by_type_eq, create_organized_structure_id s h1 h2, h3, orgTypeFold_nil]

/-! ### Example state for concrete instances -/

/-- A concrete source directory used by the closed instances below. -/
def exState : State :=
  ⟨["photo.jpg".toList, "notes".toList], ∅, fun _ => emptyDir⟩

/-! ### The claims -/

/-- C1: In both organize modes, under any per-file failure oracle, every
visited file is either moved once (to a destination free at move time,
which resolveCollision guarantees) or left in place with its name logged
as an error — the moved and error lists together are a permutation of
the visited files — and the total file count over the source tree
(which contains the destination tree) is unchanged, so no file is ever
deleted or overwritten. -/
theorem claim_C1_no_file_lost (fails : Name → Bool) (ctime : Name → Nat)
    (s : State) (hnd : s.files.Nodup) :
    totalFiles (organize_by_type fails s).state = totalFiles s ∧
    ((organize_by_type fails s).moved ++ (organize_by_type fails s).errors).Perm
      (eligible s) ∧
    totalFiles (organize_by_date ctime fails s).state = totalFiles s ∧
    ((organize_by_date ctime fails s).moved
        ++ (organize_by_date ctime fails s).errors).Perm (eligible s) := by
  obtain ⟨t1, m1, e1, _, _, _, _⟩ := organize_by_type_run fails s hnd
  obtain ⟨t2, m2, e2, _, _⟩ := organize_by_date_run ctime fails s hnd
  have hp : ((eligible s).filter (fun n => !fails n)
      ++ (eligible s).filter fails).Perm (eligible s) := by
    have hq := List.filter_append_perm (fun n => !fails n) (eligible s)
    simpa [Bool.not_not] using hq
  refine ⟨t1, ?_, t2, ?_⟩
  · rw [m1, e1]
    exact hp
  · rw [m2, e2]
    exact hp

theorem claim_C1_witness :
    totalFiles (organize_by_type (fun _ => false) exState).state = totalFiles exState :=
  (claim_C1_no_file_lost (fun _ => false) (fun _ => 0) exState (by decide)).1

/-- C2: Per-file move failures are caught and logged: under any failure
oracle the error list is exactly the visited files whose move failed and
the moved list is exactly the rest, so a failure never aborts the batch
and the final summary accounts for every visited file; the cleanup pass
likewise converts every rmdir failure into an error and removes the
rest.  All three passes are total functions that always return their
summary counts. -/
theorem claim_C2_failures_logged (fails rmFails : Name → Bool) (ctime : Name → Nat)
    (s : State) (hnd : s.files.Nodup) :
    (organize_by_type fails s).errors = (eligible s).filter fails ∧
    (organize_by_type fails s).moved = (eligible s).filter (fun n => !fails n) ∧
    (organize_by_type fails s).moved.length + (organize_by_type fails s).errors.length
      = (eligible s).length ∧
    (organize_by_date ctime fails s).errors = (eligible s).filter fails ∧
    (organize_by_date ctime fails s).moved = (eligible s).filter (fun n => !fails n) ∧
    (clean_empty_folders rmFails s).errors
      = (emptyFolderSet s).filter (fun n => rmFails n = true) ∧
    (clean_empty_folders rmFails s).removed
      = (emptyFolderSet s).filter (fun n => rmFails n = false) := by
  obtain ⟨_, m1, e1, _, _, _, _⟩ := organize_by_type_run fails s hnd
  obtain ⟨_, m2, e2, _, _⟩ := organize_by_date_run ctime fails s hnd
  have hp : ((eligible s).filter (fun n => !fails n)
      ++ (eligible s).filter fails).Perm (eligible s) := by
    have hq := List.filter_append_perm (fun n => !fails n) (eligible s)
    simpa [Bool.not_not] using hq
  have hlen := hp.length_eq
  rw [List.length_append] at hlen
  refine ⟨e1, m1, ?_, e2, m2, rfl, rfl⟩
  rw [m1, e1]
  exact hlen

theorem claim_C2_witness :
    (organize_by_type (fun _ => false) exState).errors
      = (eligible exState).filter (fun _ => false) :=
  (claim_C2_failures_logged (fun _ => false) (fun _ => false) (fun _ => 0) exState
    (by decide)).1

/-- C3: The destination resolver returns the desired name unchanged when
it does not occur in the destination directory, never returns a name
that occurs there at call time, and in a directory already holding
a.txt and a_1.txt it resolves a new a.txt to a_2.txt. -/
theorem claim_C3_resolver (occ : Finset Name) (name : Name) :
    resolveCollision occ name ∉ occ ∧
    (name ∉ occ → resolveCollision occ name = name) ∧
    resolveCollision {"a.txt".toList, "a_1.txt".toList} ("a.txt".toList)
      = "a_2.txt".toList := by
  refine ⟨resolveCollision_not_mem occ name, resolveCollision_of_not_mem occ name, ?_⟩
  decide

/-- C4: With no move failures, a first organize-by-type pass moves
exactly the eligible files, each once (the moved list is the visited
list, which has no duplicates), and a second pass on the resulting state
changes nothing and moves zero files: already-moved files are no longer
direct children, and the existing Organized tree is reused as is. -/
theorem claim_C4_rerun_idempotent (s : State) (hnd : s.files.Nodup) :
    (organize_by_type (fun _ => false) s).moved = eligible s ∧
    (eligible s).Nodup ∧
    organize_by_type (fun _ => false) ((organize_by_type (fun _ => false) s).state)
      = ⟨(organize_by_type (fun _ => false) s).state, [], []⟩ := by
  obtain ⟨_, m1, _, hroot, hcats, _, hmem⟩ := organize_by_type_run (fun _ => false) s hnd
  refine ⟨?_, eligible_nodup s hnd, ?_⟩
  · rw [m1]
    simp
  · have hall : ∀ x ∈ (organize_by_type (fun _ => false) s).state.files, x = dsStore := by
      intro x hx
      obtain ⟨hxs, hnx⟩ := (hmem x).mp hx
      by_contra hne
      exact hnx ⟨(eligible_mem s x).mpr ⟨hxs, hne⟩, rfl⟩
    exact organize_by_type_noop _ _ hroot hcats (eligible_eq_nil _ hall)

theorem claim_C4_witness :
    (organize_by_type (fun _ => false) exState).moved = eligible exState :=
  (claim_C4_rerun_idempotent exState (by decide)).1

/-- C5: The classifier is a total function of the extension: an
extension whose lower-casing occurs in a category of the fixed table is
mapped to that category (each extension occurs in at most one, so this
is the unique category containing it), and any other extension —
including the empty one — is mapped to Others. -/
theorem claim_C5_classifier :
    (∀ ext cat exts, (cat, exts) ∈ fileTypes → lowerName ext ∈ exts →
      categoryOfExt ext = cat) ∧
    (∀ ext, (∀ p ∈ fileTypes, lowerName ext ∉ p.2) → categoryOfExt ext = "Others") ∧
    categoryOfExt [] = "Others" := by
  refine ⟨?_, ?_, by decide⟩
  · intro ext cat exts hmem hin
    unfold categoryOfExt
    exact categoryLookup_table (cat, exts) hmem (lowerName ext) hin
  · intro ext h
    unfold categoryOfExt
    exact categoryLookup_others (lowerName ext) h

/-- C6: The collision loop is a deterministic function that terminates
on every input within the directory entry count plus one probes: it
returns candidate k for the least k whose candidate name is free, with
k at most the entry count, where candidate 0 is the original desired
name (stem plus suffix) and candidate n + 1 inserts an underscore and
the decimal counter directly between the stem and the suffix of the
original name. -/
theorem claim_C6_resolver_terminates (occ : Finset Name) (name : Name) :
    (∃ k, k ≤ occ.card ∧ resolveCollision occ name = cand (pathSplit name) k ∧
      cand (pathSplit name) k ∉ occ ∧
      ∀ j, j < k → cand (pathSplit name) j ∈ occ) ∧
    cand (pathSplit name) 0 = name :=
  ⟨resolveCollision_spec occ name, cand_zero name⟩

/-- C7: When the source directory is missing, each organize pass logs an
error and does nothing else: no state exists to change, zero files are
moved, and the pass returns normally. -/
theorem claim_C7_missing_source (fails : Name → Bool) (ctime : Name → Nat) :
    organize_by_type_main fails none = (none, 0, true) ∧
    organize_by_date_main ctime fails none = (none, 0, true) :=
  ⟨rfl, rfl⟩

/-- C8: The date bucketer formats the civil year and zero-padded month
of the local-time creation timestamp as the year, a dash, and the
two-digit month; the month is always between 1 and 12; two timestamps
in the same civil month get the same label and timestamps in different
civil months get different labels; the timestamp for 2024-03-15 noon
local time yields the label 2024-03. -/
theorem claim_C8_date_bucketer (t1 t2 : Nat) :
    yearMonthLabel t1
      = fmtNat (civilFromDays (t1 / 86400)).1
          ++ '-' :: pad2 (civilFromDays (t1 / 86400)).2 ∧
    (1 ≤ (civilFromDays (t1 / 86400)).2 ∧ (civilFromDays (t1 / 86400)).2 ≤ 12) ∧
    (civilFromDays (t1 / 86400) = civilFromDays (t2 / 86400) →
      yearMonthLabel t1 = yearMonthLabel t2) ∧
    (civilFromDays (t1 / 86400) ≠ civilFromDays (t2 / 86400) →
      yearMonthLabel t1 ≠ yearMonthLabel t2) ∧
    yearMonthLabel 1710504000 = "2024-03".toList := by
  refine ⟨rfl, civilFromDays_month_range (t1 / 86400), ?_, ?_, by decide⟩
  · intro h
    exact (yearMonthLabel_eq_iff t1 t2).mpr h
  · intro h hlab
    exact h ((yearMonthLabel_eq_iff t1 t2).mp hlab)

/-- C9: An organize-by-type pass visits exactly the direct child files
other than the one named .DS_Store (the comparison is with that exact
name, and subdirectories are not files, hence skipped): a name is on
the moved or error list exactly when it is a direct child file distinct
from .DS_Store.  A hidden dotfile such as .gitignore has an empty
computed extension and is classified as Others and visited. -/
theorem claim_C9_skip_rules (fails : Name → Bool) (s : State) (hnd : s.files.Nodup) :
    (∀ n, (n ∈ (organize_by_type fails s).moved ∨ n ∈ (organize_by_type fails s).errors)
      ↔ (n ∈ s.files ∧ n ≠ dsStore)) ∧
    get_file_category (".gitignore".toList) = "Others" ∧
    (pathSplit (".gitignore".toList)).2 = [] ∧
    dsStore = ".DS_Store".toList := by
  obtain ⟨_, m1, e1, _, _, _, _⟩ := organize_by_type_run fails s hnd
  refine ⟨?_, by decide, by decide, rfl⟩
  intro n
  rw [m1, e1]
  constructor
  · rintro (hmv | her)
    · exact (eligible_mem s n).mp (List.mem_of_mem_filter hmv)
    · exact (eligible_mem s n).mp (List.mem_of_mem_filter her)
  · intro hn
    have helig := (eligible_mem s n).mpr hn
    by_cases hfn : fails n = true
    · right
      exact List.mem_filter.mpr ⟨helig, hfn⟩
    · left
      have hf0 : fails n = false := by
        cases h : fails n
        · rfl
        · exact absurd h hfn
      refine List.mem_filter.mpr ⟨helig, ?_⟩
      simp [hf0]

theorem claim_C9_witness :
    get_file_category (".gitignore".toList) = "Others" :=
  (claim_C9_skip_rules (fun _ => false) exState (by decide)).2.1

/-- C10: The cleanup pass never touches the contents of any directory
(the dirs map is unchanged, so category folders inside Organized —
empty or not — are never removed) and removes only empty direct child
directories of the source; after a type-mode run, Organized contains
the category folders, is therefore never empty, and survives cleanup. -/
theorem claim_C10_cleanup_frame (fails rmFails : Name → Bool) (s : State)
    (hnd : s.files.Nodup) :
    (clean_empty_folders rmFails ((organize_by_type fails s).state)).state.dirs
      = (organize_by_type fails s).state.dirs ∧
    orgRoot ∈ (clean_empty_folders rmFails ((organize_by_type fails s).state)).state.dirNames ∧
    (∀ n, n ∈ (clean_empty_folders rmFails s).removed →
      (n ∈ s.dirNames ∧ (s.dirs n).dfiles = ∅ ∧ (s.dirs n).dsubs = ∅)) ∧
    (clean_empty_folders rmFails s).state.files = s.files := by
  obtain ⟨_, _, _, hroot, hcats, _, _⟩ := organize_by_type_run fails s hnd
  refine ⟨clean_dirs rmFails _, ?_, ?_, clean_files rmFails s⟩
  · rw [clean_dirNames]
    apply Finset.mem_sdiff.mpr
    refine ⟨hroot, ?_⟩
    intro hmemrm
    have hmem2 := Finset.mem_filter.mp hmemrm
    have hmem3 := Finset.mem_filter.mp hmem2.1
    have hOthers : ("Others".toList)
        ∈ (((organize_by_type fails s).state.dirs orgRoot).dsubs) :=
      hcats ("Others".toList) (by decide)
    rw [hmem3.2.2] at hOthers
    exact absurd hOthers (Finset.not_mem_empty _)
  · intro n hn
    rw [clean_removed] at hn
    have h1 := Finset.mem_filter.mp hn
    have h2 := Finset.mem_filter.mp h1.1
    exact ⟨h2.1, h2.2⟩

theorem claim_C10_witness :
    (clean_empty_folders (fun _ => false) ((organize_by_type (fun _ => false) exState).state)).state.dirs
      = (organize_by_type (fun _ => false) exState).state.dirs :=
  (claim_C10_cleanup_frame (fun _ => false) (fun _ => false) exState (by decide)).1
